import Mathlib

/-!
Shallow embedding of the budget-extraction pipeline of this repository
(`6年度予算/extract_budget_v4.py`, `R6/extract_budget_v3.py`), together with
theorems settling the frozen claims about it.

Conventions of the embedding:
* Python strings are Lean `String`s / `List Char`; the Python `str` helpers
  (`strip`, `split`, `replace`, substring containment, `int(...)`) are
  modelled below, restricted to the character repertoire of this document
  (ASCII plus full-width digits and the ideographic space).
* `re.match` is modelled by a small backtracking regular-expression engine
  with Python's priority order (leftmost alternative first, greedy star takes
  more first, lazy star takes less first); capture groups record the consumed
  substring.
* Exceptions are modelled with `Option`/`Except`: a `none`/`.error` result of
  a fallible function is the Python exception; functions whose Python body
  cannot raise are plain total functions.
-/

namespace Budget

/-! ### Python character classes and string helpers -/

/-- Python `\s` (and `str.strip`/`str.split` whitespace), restricted to the
whitespace characters that occur in this pipeline's data: ASCII whitespace
plus the ideographic space U+3000. -/
def pySpace (c : Char) : Bool :=
  c = ' ' || c = '\t' || c = '\n' || c = '\r' || c = '\x0b' || c = '\x0c' ||
  c = '　'

/-- Python `\d` / `str.isdigit` character class, restricted to the decimal
digits occurring in this document: ASCII `0`-`9` and full-width `０`-`９`. -/
def pyDigit (c : Char) : Bool :=
  ('0' ≤ c && c ≤ '9') || ('０' ≤ c && c ≤ '９')

/-- Numeric value of a `pyDigit` character. -/
def pyDigitVal (c : Char) : Nat :=
  if '0' ≤ c && c ≤ '9' then c.toNat - '0'.toNat else c.toNat - '０'.toNat

/-- Python `str.strip()` on a character list. -/
def pyStripL (cs : List Char) : List Char :=
  ((cs.dropWhile pySpace).reverse.dropWhile pySpace).reverse

/-- Python `str.strip()`. -/
def pyStrip (s : String) : String := String.mk (pyStripL s.toList)

/-- Python `str.split()` (split on runs of whitespace, no empty tokens). -/
def pySplitL : List Char → List Char → List String
  | [], acc => if acc.isEmpty then [] else [String.mk acc.reverse]
  | c :: rest, acc =>
    if pySpace c then
      if acc.isEmpty then pySplitL rest [] else String.mk acc.reverse :: pySplitL rest []
    else pySplitL rest (c :: acc)

/-- Python `str.split()`. -/
def pySplit (s : String) : List String := pySplitL s.toList []

/-- Python substring containment `pat in hay` on character lists. -/
def containsSubL (hay pat : List Char) : Bool :=
  match hay with
  | [] => pat.isEmpty
  | _ :: rest => pat.isPrefixOf hay || containsSubL rest pat

/-- Python substring containment `pat in hay`. -/
def containsSub (hay pat : String) : Bool := containsSubL hay.toList pat.toList

/-- One pass of Python `str.replace(pat, rep)` (left-to-right, non-overlapping),
with fuel equal to the input length (each step consumes at least one input
character, so the fuel never runs out). -/
def pyReplaceAux : Nat → List Char → List Char → List Char → List Char
  | 0, s, _, _ => s
  | _ + 1, [], _, _ => []
  | fuel + 1, c :: rest, pat, rep =>
    if !pat.isEmpty && pat.isPrefixOf (c :: rest) then
      rep ++ pyReplaceAux fuel (List.drop pat.length (c :: rest)) pat rep
    else c :: pyReplaceAux fuel rest pat rep

/-- Python `str.replace(pat, rep)`. -/
def pyReplace (s pat rep : String) : String :=
  String.mk (pyReplaceAux s.toList.length s.toList pat.toList rep.toList)

/-- Value of a nonempty all-digit character list. -/
def digitsVal : List Char → Nat → Nat
  | [], acc => acc
  | c :: rest, acc => digitsVal rest (acc * 10 + pyDigitVal c)

/-- Python `int(s)`: optional surrounding whitespace, optional sign, then one
or more decimal digits; anything else raises `ValueError`, modelled as
`none`.  (Digit-group underscores, accepted by Python 3, do not occur in this
document and are not modelled.) -/
def pyInt (s : String) : Option Int :=
  let cs := pyStripL s.toList
  match cs with
  | '-' :: ds =>
    if !ds.isEmpty && ds.all pyDigit then some (-(digitsVal ds 0 : Int)) else none
  | '+' :: ds =>
    if !ds.isEmpty && ds.all pyDigit then some (digitsVal ds 0 : Int) else none
  | ds =>
    if !ds.isEmpty && ds.all pyDigit then some (digitsVal ds 0 : Int) else none

/-- Python `str.isdigit()` (restricted to this document's digit repertoire). -/
def pyIsdigit (s : String) : Bool :=
  !s.toList.isEmpty && s.toList.all pyDigit

/-! ### Regular-expression engine

A direct model of CPython `re` backtracking on the small patterns used by the
scripts.  `Re.star true` is the greedy star, `Re.star false` the lazy star;
alternatives are tried left first; a capture group records the substring it
consumed.  The fuel argument of `mtch` bounds the recursion depth; callers
pass a fuel that is large enough for the fixed patterns below, and all
theorems are stated about the actual (fuelled) functions. -/

/-- Regular-expression abstract syntax. -/
inductive Re where
  | one : (Char → Bool) → Re
  | eps : Re
  | eos : Re
  | seq : Re → Re → Re
  | alt : Re → Re → Re
  | star : Bool → Re → Re
  | grp : Nat → Re → Re

/-- Captures: group index paired with the consumed characters (most recent
first). -/
abbrev Caps := List (Nat × List Char)

/-- Backtracking matcher in continuation-passing style.  The continuation
receives the rest of the input and the captures; `none` from the continuation
triggers backtracking.  The progress check in `star` mirrors CPython's
refusal to repeat an empty-width match. -/
def mtch : Nat → Re → List Char → Caps →
    (List Char → Caps → Option Caps) → Option Caps
  | 0, _, _, _, _ => none
  | _ + 1, .one p, s, caps, k =>
    match s with
    | [] => none
    | c :: rest => if p c then k rest caps else none
  | _ + 1, .eps, s, caps, k => k s caps
  | _ + 1, .eos, s, caps, k => if s.isEmpty then k s caps else none
  | fuel + 1, .seq a b, s, caps, k =>
    mtch fuel a s caps (fun s' caps' => mtch fuel b s' caps' k)
  | fuel + 1, .alt a b, s, caps, k =>
    match mtch fuel a s caps k with
    | some r => some r
    | none => mtch fuel b s caps k
  | fuel + 1, .star g a, s, caps, k =>
    let expand := mtch fuel a s caps (fun s' caps' =>
      if s'.length < s.length then mtch fuel (.star g a) s' caps' k else none)
    if g then
      match expand with
      | some r => some r
      | none => k s caps
    else
      match k s caps with
      | some r => some r
      | none => expand
  | fuel + 1, .grp n a, s, caps, k =>
    mtch fuel a s caps (fun s' caps' =>
      k s' ((n, s.take (s.length - s'.length)) :: caps'))

/-- Size of a pattern, used to pick a sufficient fuel. -/
def Re.size : Re → Nat
  | .one _ => 1
  | .eps => 1
  | .eos => 1
  | .seq a b => a.size + b.size + 1
  | .alt a b => a.size + b.size + 1
  | .star _ a => a.size + 1
  | .grp _ a => a.size + 1

/-- Python `re.match(r, s)` (anchored at the start, free at the end):
`some caps` is a match object, `none` no match. -/
def reMatch (r : Re) (s : String) : Option Caps :=
  mtch ((s.length + 2) * (r.size + 2)) r s.toList [] (fun _ caps => some caps)

/-- Python `match.group(n)`: the most recent capture of group `n` (every group
in the patterns below captures at most once). -/
def capGroup (caps : Caps) (n : Nat) : String :=
  match caps.find? (fun pr => pr.1 = n) with
  | some pr => String.mk pr.2
  | none => ""

/-- Greedy `+`. -/
def Re.plusG (a : Re) : Re := .seq a (.star true a)
/-- Lazy `+?`. -/
def Re.plusL (a : Re) : Re := .seq a (.star false a)
/-- Greedy `?`. -/
def Re.opt (a : Re) : Re := .alt a .eps
/-- A literal character. -/
def Re.ch (c : Char) : Re := .one (fun d => d = c)
/-- `.` : any character except a newline. -/
def Re.dot : Re := .one (fun d => d ≠ '\n')

/-! ### The scripts' patterns -/

/-- `^-\s*\d+\s*-$` (page-number decoration). -/
def pageNumRe : Re :=
  .seq (.ch '-') (.seq (.star true (.one pySpace))
    (.seq (Re.plusG (.one pyDigit)) (.seq (.star true (.one pySpace))
      (.seq (.ch '-') .eos))))

/-- `[\d,]` -/
def digitComma (c : Char) : Bool := pyDigit c || c = ','

/-- `[\d,△\-]` -/
def digitCommaNeg (c : Char) : Bool := pyDigit c || c = ',' || c = '△' || c = '-'

/-- `[（(]?(\d+|[０-９]+)款\s+(.+?)\s+([\d,]+)千円` (chapter header).  `\d`
already covers the full-width digits, so the second alternative of group 1 is
redundant but kept to mirror the source pattern. -/
def kanRe : Re :=
  .seq (Re.opt (.one (fun c => c = '（' || c = '(')))
    (.seq (.grp 1 (.alt (Re.plusG (.one pyDigit))
        (Re.plusG (.one (fun c => '０' ≤ c && c ≤ '９')))))
      (.seq (Re.ch '款')
        (.seq (Re.plusG (.one pySpace))
          (.seq (.grp 2 (Re.plusL Re.dot))
            (.seq (Re.plusG (.one pySpace))
              (.seq (.grp 3 (Re.plusG (.one digitComma)))
                (.seq (Re.ch '千') (Re.ch '円'))))))))

/-- `(\d+|[０-９]+)項\s+(.+?)\s+([\d,]+)千円` (section header). -/
def kouRe : Re :=
  .seq (.grp 1 (.alt (Re.plusG (.one pyDigit))
      (Re.plusG (.one (fun c => '０' ≤ c && c ≤ '９')))))
    (.seq (Re.ch '項')
      (.seq (Re.plusG (.one pySpace))
        (.seq (.grp 2 (Re.plusL Re.dot))
          (.seq (Re.plusG (.one pySpace))
            (.seq (.grp 3 (Re.plusG (.one digitComma)))
              (.seq (Re.ch '千') (Re.ch '円')))))))

/-- `計\s+([\d,△\-]+)\s+([\d,△\-]+)\s+([\d,△\-]+)` (total row). -/
def totalRe : Re :=
  .seq (Re.ch '計')
    (.seq (Re.plusG (.one pySpace))
      (.seq (.grp 1 (Re.plusG (.one digitCommaNeg)))
        (.seq (Re.plusG (.one pySpace))
          (.seq (.grp 2 (Re.plusG (.one digitCommaNeg)))
            (.seq (Re.plusG (.one pySpace))
              (.grp 3 (Re.plusG (.one digitCommaNeg))))))))

/-- `(\d+)\s+(.+?)\s+([\d,△\-]+)\s+([\d,△\-]+)\s+([\d,△\-]+)` (item row). -/
def mokuRe : Re :=
  .seq (.grp 1 (Re.plusG (.one pyDigit)))
    (.seq (Re.plusG (.one pySpace))
      (.seq (.grp 2 (Re.plusL Re.dot))
        (.seq (Re.plusG (.one pySpace))
          (.seq (.grp 3 (Re.plusG (.one digitCommaNeg)))
            (.seq (Re.plusG (.one pySpace))
              (.seq (.grp 4 (Re.plusG (.one digitCommaNeg)))
                (.seq (Re.plusG (.one pySpace))
                  (.grp 5 (Re.plusG (.one digitCommaNeg))))))))))

/-- `^([^\d]+?)\s*([\d,]+)$` (rationale sub-item line). -/
def setsumeiItemRe : Re :=
  .seq (.grp 1 (Re.plusL (.one (fun c => !pyDigit c))))
    (.seq (.star true (.one pySpace))
      (.seq (.grp 2 (Re.plusG (.one digitComma))) .eos))

/-- `^[\d,]+$` (v3 amount-token test). -/
def amountTokRe : Re :=
  .seq (Re.plusG (.one digitComma)) .eos

/-! ### `parse_amount` (extract_budget_v4.py lines 202-210) -/

/-- `parse_amount`: `None` for the empty string; otherwise strip thousands
separators, map `△` to `-`, drop the `千円` suffix, strip, and parse as an
integer scaled by 1000; a failed parse is `None` (the bare `except`), never an
exception. -/
def parse_amount (text : String) : Option Int :=
  if text = "" then none
  else
    let t := pyStrip (pyReplace (pyReplace (pyReplace text "," "") "△" "-") "千円" "")
    (pyInt t).map (fun n => n * 1000)

/-! ### `identify_row_type` (extract_budget_v4.py lines 213-258) -/

/-- The data dictionary attached to a classified row; `bangou` is the `番号`
key, `honnendo` the `本年度予算額` key, `zennendo` the `前年度予算額` key and
`hikaku` the `比較` key.  The Python dictionaries carry a subset of these keys
per tag; since the assembler reads them only through `dict.get` (absent key
and `None` value both read as `None`), an absent key is modelled as `none`. -/
structure RowData where
  bangou : Option String
  honnendo : Option Int
  zennendo : Option Int
  hikaku : Option Int
deriving DecidableEq, Repr

/-- `identify_row_type`: classify the left-column text of a row into one of
the eight tags, returning `(tag, name, data)` as the Python triple does. -/
def identify_row_type (leftText : String) : String × Option String × Option RowData :=
  let t := pyStrip leftText
  if t = "" then ("empty", none, none)
  else if containsSub t "本年度予算額" || containsSub t "前年度予算額" then
    ("header", none, none)
  else if t = "千円" || t = "千円 千円 千円" then ("header", none, none)
  else if (reMatch pageNumRe t).isSome then ("page_number", none, none)
  else
    match reMatch kanRe t with
    | some caps =>
      ("kan_header", some (capGroup caps 2),
        some ⟨some (capGroup caps 1), parse_amount (capGroup caps 3), none, none⟩)
    | none =>
      match reMatch kouRe t with
      | some caps =>
        ("kou_header", some (capGroup caps 2),
          some ⟨some (capGroup caps 1), parse_amount (capGroup caps 3), none, none⟩)
      | none =>
        match reMatch totalRe t with
        | some caps =>
          ("total", none,
            some ⟨none, parse_amount (capGroup caps 1),
              parse_amount (capGroup caps 2), parse_amount (capGroup caps 3)⟩)
        | none =>
          match reMatch mokuRe t with
          | some caps =>
            ("moku", some (capGroup caps 2),
              some ⟨some (capGroup caps 1), parse_amount (capGroup caps 3),
                parse_amount (capGroup caps 4), parse_amount (capGroup caps 5)⟩)
          | none => ("unknown", some t, none)

/-! ### `parse_setsumei_lines` (extract_budget_v4.py lines 101-158) -/

/-- One record of the structured rationale dictionary: the `金額` key is
`kingaku`, `調定見込額` is `chousa`, `算定標準額` is `santei` and `備考` is
`bikou`; an absent key is `none`. -/
structure ItemRecord where
  kingaku : Option Int
  chousa : Option String
  santei : Option String
  bikou : Option String
deriving DecidableEq, Repr

/-- The clause-level info dictionary `setsu_level_info` (keys `調定見込額` and
`算定標準額`). -/
structure SetsuLevelInfo where
  chousa : Option String
  santei : Option String
deriving DecidableEq, Repr

/-- Python truthiness of the `setsu_level_info` dictionary: it has a key. -/
def SetsuLevelInfo.truthy (i : SetsuLevelInfo) : Bool :=
  i.chousa.isSome || i.santei.isSome

/-- Return value of `parse_setsumei_lines`: either the sub-item dictionary in
insertion order (with the optional `_節情報` entry as `info`), or — when no
sub-item was ever opened and clause-level info exists — the flat clause-level
info dictionary itself. -/
inductive SetsumeiOut where
  | dict (items : List (String × ItemRecord)) (info : Option SetsuLevelInfo)
  | flat (info : SetsuLevelInfo)
deriving DecidableEq, Repr

/-- Python truthiness of the returned dictionary (`if s['説明']:`). -/
def SetsumeiOut.truthy : SetsumeiOut → Bool
  | .dict items info => !items.isEmpty || info.isSome
  | .flat info => info.truthy

/-- Update the first entry of an association list holding a given key
(mirroring mutation of the Python dict entry; keys are unique by
construction). -/
def updItem (key : String) (f : ItemRecord → ItemRecord) :
    List (String × ItemRecord) → List (String × ItemRecord)
  | [] => []
  | (k, v) :: rest =>
    if k = key then (k, f v) :: rest else (k, v) :: updItem key f rest

/-- Loop state of `parse_setsumei_lines`: the dictionary built so far, the
`current_item_name` variable and the `setsu_level_info` dictionary.  Since a
sub-item name is never the empty string (the line was stripped, so group 1 of
the pattern starts with a non-space character), Python's truthiness test
`if current_item_name` coincides with `isSome`. -/
structure PSState where
  result : List (String × ItemRecord)
  currentItemName : Option String
  setsuLevel : SetsuLevelInfo
deriving DecidableEq, Repr

/-- Initial `parse_setsumei_lines` state. -/
def psInit : PSState := ⟨[], none, ⟨none, none⟩⟩

/-- Processing of one rationale line by `parse_setsumei_lines`; `none` is the
uncaught `ValueError` of `int` on a separator-only amount group. -/
def parse_setsumei_step (setsuName : String) (st : PSState) (line0 : String) :
    Option PSState :=
  let line := pyStrip line0
  if line = "" then some st
  else if containsSub line "調定見込額" || containsSub line "算定標準額" then
    let isChousa := containsSub line "調定見込額"
    let value := pyStrip (pyReplace (pyReplace line "調定見込額" "") "算定標準額" "")
    let setRec : ItemRecord → ItemRecord := fun r =>
      if isChousa then { r with chousa := some value } else { r with santei := some value }
    let setInfo : SetsuLevelInfo → SetsuLevelInfo := fun i =>
      if isChousa then { i with chousa := some value } else { i with santei := some value }
    match st.currentItemName with
    | some n =>
      if (st.result.find? (fun p => p.1 = n)).isSome then
        some { st with result := updItem n setRec st.result }
      else some { st with setsuLevel := setInfo st.setsuLevel }
    | none => some { st with setsuLevel := setInfo st.setsuLevel }
  else
    match reMatch setsumeiItemRe line with
    | some caps =>
      let itemName := pyStrip (capGroup caps 1)
      match pyInt (pyReplace (capGroup caps 2) "," "") with
      | none => none
      | some v =>
        let amount := v * 1000
        if itemName = setsuName then some { st with currentItemName := none }
        else if (st.result.find? (fun p => p.1 = itemName)).isSome then some st
        else
          some { st with
            result := st.result ++ [(itemName, ⟨some amount, none, none, none⟩)],
            currentItemName := some itemName }
    | none =>
      match st.currentItemName with
      | some n =>
        if (st.result.find? (fun p => p.1 = n)).isSome then
          let addRemark : ItemRecord → ItemRecord := fun r =>
            match r.bikou with
            | none => { r with bikou := some line }
            | some b => { r with bikou := some (b ++ " " ++ line) }
          some { st with result := updItem n addRemark st.result }
        else some st
      | none => some st

/-- The loop of `parse_setsumei_lines`. -/
def parse_setsumei_go (setsuName : String) (lines : List String) : Option PSState :=
  lines.foldlM (parse_setsumei_step setsuName) psInit

/-- `parse_setsumei_lines`: structure the rationale lines of one clause. -/
def parse_setsumei_lines (lines : List String) (setsuName : String) :
    Option SetsumeiOut :=
  (parse_setsumei_go setsuName lines).map fun st =>
    if st.setsuLevel.truthy && st.result.isEmpty then .flat st.setsuLevel
    else if st.setsuLevel.truthy then .dict st.result (some st.setsuLevel)
    else .dict st.result none

/-! ### `parse_right_setsu` (R6/extract_budget_v3.py lines 84-123) -/

/-- One clause record produced by the v3 clause extractor (`節名`, `金額`,
`説明_raw`). -/
structure SetsuV3 where
  name : String
  kingaku : Int
  setsumeiRaw : String
deriving DecidableEq, Repr

/-- The inner `while j < len(parts)` scan of `parse_right_setsu`: walk the
tokens after a clause-start token, accumulating name parts, until the first
token that matches `^[\d,]+$` and whose comma-stripped integer value is at
least 100.  Returns the accumulated name parts and, if found, the scaled
amount and the tokens after the amount token.  `.error` is the uncaught
`ValueError` of `int('')` on a separator-only token. -/
def scanName : List String → Except Unit (List String × Option (Int × List String))
  | [] => .ok ([], none)
  | t :: rest =>
    if (reMatch amountTokRe t).isSome then
      match pyInt (pyReplace t "," "") with
      | none => .error ()
      | some v =>
        if 100 ≤ v then .ok ([], some (v * 1000, rest))
        else
          match scanName rest with
          | .error e => .error e
          | .ok (ns, r) => .ok (t :: ns, r)
    else
      match scanName rest with
      | .error e => .error e
      | .ok (ns, r) => .ok (t :: ns, r)

/-- The outer `while i < len(parts)` loop of `parse_right_setsu`: a token made
of digits starts a candidate clause; if the inner scan finds an amount and the
name parts are nonempty, a clause is emitted (name parts joined without
separator, rationale = the space-joined tokens after the amount token) and the
scan resumes right after the amount token; otherwise the loop advances one
token.  Structural recursion on a fuel bound: every iteration consumes at
least one token, so any fuel above the token count gives the loop's value
(`parse_right_setsu_go_congr` below). -/
def parse_right_setsu_go : Nat → List String → Except Unit (List SetsuV3)
  | _, [] => .ok []
  | 0, _ :: _ => .ok []
  | fuel + 1, tk :: rest =>
    if pyIsdigit tk then
      match scanName rest with
      | .error _ => .error ()
      | .ok (_, none) => parse_right_setsu_go fuel rest
      | .ok (names, some (amt, after)) =>
        if names.isEmpty then parse_right_setsu_go fuel rest
        else
          match parse_right_setsu_go fuel after with
          | .error e => .error e
          | .ok tail =>
            .ok ({ name := String.join names, kingaku := amt,
                   setsumeiRaw := " ".intercalate after } :: tail)
    else parse_right_setsu_go fuel rest

/-- `parse_right_setsu`: extract the clause records of one right-column row
text. -/
def parse_right_setsu (rightText : String) : Except Unit (List SetsuV3) :=
  if pyStrip rightText = "" then .ok []
  else
    let parts := pySplit rightText
    parse_right_setsu_go (parts.length + 1) parts

/-! ### `build_budget_structure` (extract_budget_v4.py lines 261-371)

The assembler consumes, per spread, the rows extracted by
`extract_spread_rows` (of which it reads only the y bucket and the left text)
and the clause list extracted by `extract_right_page_setsu` (name `節名`,
amount `金額`, anchor `y_start`, structured rationale `説明`).  Both
extractors are geometry over the external PDF library; their outputs are the
assembler's inputs here. -/

/-- A spread row: the y bucket and the space-joined left-column text (the
right-column text of `extract_spread_rows` is never read by
`build_budget_structure`). -/
structure Row where
  y : Int
  left : String
deriving DecidableEq, Repr

/-- One clause record of `extract_right_page_setsu`. -/
structure Setsu where
  name : String
  kingaku : Int
  yStart : Int
  setsumei : SetsumeiOut
deriving DecidableEq, Repr

/-- One spread: the matched rows of the facing pages and the clause list of
the right page. -/
structure Spread where
  leftRows : List Row
  setsuList : List Setsu
deriving DecidableEq, Repr

/-- A clause entry as stored under an item: the `金額` key, and the `説明`
key when the structured rationale is truthy. -/
structure SetsuOut where
  kingaku : Int
  setsumei : Option SetsumeiOut
deriving DecidableEq, Repr

/-- The value dictionary of one item (`目`): the three amounts and the
optional `節` list (present only when at least one clause was claimed). -/
structure MokuData where
  honnendo : Option Int
  zennendo : Option Int
  hikaku : Option Int
  setsu : Option (List (String × SetsuOut))
deriving DecidableEq, Repr

/-- One section (`項`): single-key dictionary name, `本年度予算額`, item
list. -/
structure Kou where
  name : String
  honnendo : Option Int
  moku : List (String × MokuData)
deriving DecidableEq, Repr

/-- One chapter (`款`): single-key dictionary name, `本年度予算額`, section
list. -/
structure Kan where
  name : String
  honnendo : Option Int
  kou : List Kou
deriving DecidableEq, Repr

/-- Assembler state: the finalized chapters (`result['款']`), the open chapter
(`current_kan`) and the open section (`current_kou`).  In the source
`current_kou` is an object reference to a section stored inside
`current_kan`; whenever it is set, the open chapter holds a section of that
name, so it is modelled by that name and mutations through it update the
first section of that name inside the open chapter. -/
structure BState where
  result : List Kan
  currentKan : Option Kan
  currentKou : Option String
deriving DecidableEq, Repr

/-- The clause entry built for a claimed clause (`setsu_entry`). -/
def setsuEntryOf (s : Setsu) : String × SetsuOut :=
  (s.name, ⟨s.kingaku, if s.setsumei.truthy then some s.setsumei else none⟩)

/-- Update the first section of a given name in a section list (mutation
through the `current_kou` reference). -/
def updKou (kouName : String) (f : Kou → Kou) : List Kou → List Kou
  | [] => []
  | k :: rest =>
    if k.name = kouName then f k :: rest else k :: updKou kouName f rest

/-- The claim test of the clause-matching loop:
`row_y - 20 <= setsu['y_start'] < next_moku_y - 20`, with `none` standing for
`float('inf')`. -/
def claimCond (rowY : Int) (nextY : Option Int) (s : Setsu) : Bool :=
  (rowY - 20 ≤ s.yStart) &&
    (match nextY with
     | some ny => decide (s.yStart < ny - 20)
     | none => true)

/-- The `next_moku_y` search: the first collected item row strictly below the
current row (`none` = `float('inf')`). -/
def nextMokuY (mokuRows : List Row) (rowY : Int) : Option Int :=
  (mokuRows.find? (fun mr => rowY < mr.y)).map (fun mr => mr.y)

/-- The item rows of a spread as collected by the assembler's first pass (of
which only the y coordinate is later read). -/
def mokuRowsOf (sp : Spread) : List Row :=
  sp.leftRows.filter (fun r => (identify_row_type r.left).1 = "moku")

/-- One iteration of the assembler's row loop, carrying the state and the
spread's still-unclaimed clause list (`right_setsu_list`). -/
def stepRow (mokuRows : List Row) (acc : BState × List Setsu) (row : Row) :
    BState × List Setsu :=
  let st := acc.1
  let pending := acc.2
  match identify_row_type row.left with
  | ("kan_header", some kanName, some data) =>
    match st.currentKan with
    | none =>
      ({ st with currentKan := some ⟨kanName, data.honnendo, []⟩,
                 currentKou := none }, pending)
    | some kan =>
      if kan.name = kanName then acc
      else
        ({ result := st.result ++ [kan],
           currentKan := some ⟨kanName, data.honnendo, []⟩,
           currentKou := none }, pending)
  | ("kou_header", some kouName, some data) =>
    match st.currentKan with
    | some kan =>
      if (kan.kou.find? (fun k => k.name = kouName)).isSome then
        ({ st with currentKou := some kouName }, pending)
      else
        ({ st with
             currentKan := some { kan with kou := kan.kou ++ [⟨kouName, data.honnendo, []⟩] },
             currentKou := some kouName }, pending)
    | none => acc
  | ("moku", some mokuName, some data) =>
    match st.currentKou, st.currentKan with
    | some kouName, some kan =>
      let nextY := nextMokuY mokuRows row.y
      let matched := pending.filter (claimCond row.y nextY)
      let remaining := pending.filter (fun s => !claimCond row.y nextY s)
      let setsuField := if matched.isEmpty then none else some (matched.map setsuEntryOf)
      let mokuData : MokuData := ⟨data.honnendo, data.zennendo, data.hikaku, setsuField⟩
      ({ st with currentKan := some { kan with
           kou := updKou kouName (fun k => { k with moku := k.moku ++ [(mokuName, mokuData)] }) kan.kou } },
        remaining)
    | _, _ => acc
  | _ => acc

/-- Processing of one spread: collect the item rows, then run the row loop
with the pending clause list initialized to the spread's own extracted
clauses; whatever is left pending when the spread ends is discarded. -/
def processSpread (st : BState) (sp : Spread) : BState :=
  (sp.leftRows.foldl (stepRow (mokuRowsOf sp)) (st, sp.setsuList)).1

/-- The empty assembler state. -/
def initState : BState := ⟨[], none, none⟩

/-- The assembler's spread loop from the empty state. -/
def processSpreads (sps : List Spread) : BState :=
  sps.foldl processSpread initState

/-- `build_budget_structure`: run the spread loop over the page range and
flush the still-open chapter. -/
def build_budget_structure (sps : List Spread) : List Kan :=
  let st := processSpreads sps
  st.result ++ (match st.currentKan with | some k => [k] | none => [])

deriving instance DecidableEq for Except

/-! ### Observations used by the claims -/

/-- Number of occurrences of one clause entry under one item. -/
def countMoku (e : String × SetsuOut) (m : String × MokuData) : Nat :=
  match m.2.setsu with
  | none => 0
  | some l => l.count e

/-- Number of occurrences of one clause entry under one section. -/
def countKou (e : String × SetsuOut) (k : Kou) : Nat :=
  (k.moku.map (countMoku e)).sum

/-- Number of occurrences of one clause entry under one chapter. -/
def countKan (e : String × SetsuOut) (kan : Kan) : Nat :=
  (kan.kou.map (countKou e)).sum

/-- Number of occurrences of one clause entry in the whole assembler state
(finalized chapters plus the open chapter). -/
def countState (e : String × SetsuOut) (st : BState) : Nat :=
  (st.result.map (countKan e)).sum +
    (match st.currentKan with | some k => countKan e k | none => 0)

/-- Section names are unique within a chapter. -/
def KanNodup (kan : Kan) : Prop :=
  (kan.kou.map (fun k => k.name)).Nodup

/-- Section names are unique within every chapter of the state. -/
def StateNodup (st : BState) : Prop :=
  (∀ kan ∈ st.result, KanNodup kan) ∧
  (∀ kan, st.currentKan = some kan → KanNodup kan)


/-- The claim predicate the assembler uses on one row, when any: the moku
branch with an open section filters the pending list by `claimCond`, every
other branch leaves it untouched. -/
def stepRow_claims (mokuRows : List Row) (st : BState) (row : Row) :
    Option (Setsu → Bool) :=
  match identify_row_type row.left with
  | ("moku", some _, some _) =>
    match st.currentKou, st.currentKan with
    | some _, some _ => some (claimCond row.y (nextMokuY mokuRows row.y))
    | _, _ => none
  | _ => none

/-- Application of an optional claim predicate to the pending list: the
clauses that remain pending. -/
def pendingFilter (c : Option (Setsu → Bool)) (l : List Setsu) : List Setsu :=
  match c with
  | none => l
  | some cond => l.filter (fun x => !cond x)

/-! ## Theorems -/

/-- The rest list returned by a successful `scanName` is strictly shorter than
its input (the amount token is consumed). -/
theorem scanName_after_length (l : List String) (ns : List String) (a : Int)
    (after : List String) (h : scanName l = .ok (ns, some (a, after))) :
    after.length < l.length := by
  induction l generalizing ns with
  | nil => simp [scanName] at h
  | cons t rest ih =>
    rw [scanName] at h
    by_cases htok : (reMatch amountTokRe t).isSome
    · simp only [htok, if_pos] at h
      match hv : pyInt (pyReplace t "," "") with
      | none => rw [hv] at h; exact absurd h (by simp)
      | some v =>
        rw [hv] at h
        by_cases hge : 100 ≤ v
        · simp only [hge, if_pos] at h
          cases h
          simp
        · simp only [hge, if_neg, if_false] at h
          match hrec : scanName rest with
          | .error e => rw [hrec] at h; exact absurd h (by simp)
          | .ok (ns', r) =>
            rw [hrec] at h
            cases h
            exact Nat.lt_succ_of_lt (ih ns' hrec)
    · simp only [htok, if_neg, if_false, Bool.false_eq_true] at h
      match hrec : scanName rest with
      | .error e => rw [hrec] at h; exact absurd h (by simp)
      | .ok (ns', r) =>
        rw [hrec] at h
        cases h
        exact Nat.lt_succ_of_lt (ih ns' hrec)


/-- The outer loop on an empty token list, any fuel. -/
theorem parse_right_setsu_go_nil (f : Nat) : parse_right_setsu_go f [] = .ok [] := by
  cases f <;> rfl

/-- Any two sufficient fuels give the same value of the outer loop. -/
theorem parse_right_setsu_go_congr (f₁ f₂ : Nat) (l : List String)
    (h₁ : l.length < f₁) (h₂ : l.length < f₂) :
    parse_right_setsu_go f₁ l = parse_right_setsu_go f₂ l := by
  induction f₁ generalizing f₂ l with
  | zero => omega
  | succ f₁ ih =>
    match l, f₂ with
    | [], f₂ => rw [parse_right_setsu_go_nil, parse_right_setsu_go_nil]
    | tk :: rest, f₂ + 1 =>
      simp only [List.length_cons] at h₁ h₂
      rw [parse_right_setsu_go, parse_right_setsu_go]
      by_cases hd : pyIsdigit tk = true
      · simp only [hd, if_pos]
        match hs : scanName rest with
        | .error _ => rfl
        | .ok (ns, none) => exact ih f₂ rest (by omega) (by omega)
        | .ok (names, some (amt, after)) =>
          simp only []
          by_cases hn : names.isEmpty
          · simp only [hn, if_pos]
            exact ih f₂ rest (by omega) (by omega)
          · simp only [hn, if_neg, if_false, Bool.false_eq_true]
            have hlen := scanName_after_length rest names amt after hs
            rw [ih f₂ after (by omega) (by omega)]
      · simp only [hd, if_neg, if_false, Bool.false_eq_true]
        exact ih f₂ rest (by omega) (by omega)

/-! ## Claim C7: amount parsing -/

/-- C7: for every amount field string, `parse_amount` either returns `none`
(integer conversion of the cleaned text failed — the bare `except`; it never
raises) or returns exactly 1000 times the integer printed in thousands, i.e.
the integer parsed from the text after stripping thousands separators,
mapping the negation glyph `△` to a minus sign and dropping the `千円`
suffix. -/
theorem claim_C7 (text : String) :
    parse_amount text = none ∨
    ∃ k : Int,
      pyInt (pyStrip (pyReplace (pyReplace (pyReplace text "," "") "△" "-") "千円" "")) = some k ∧
      parse_amount text = some (k * 1000) := by
  by_cases h : text = ""
  · left
    simp [parse_amount, h]
  · rcases hv : pyInt (pyStrip (pyReplace (pyReplace (pyReplace text "," "") "△" "-") "千円" "")) with _ | k
    · left
      simp [parse_amount, h, hv]
    · right
      exact ⟨k, rfl, by simp [parse_amount, h, hv]⟩

/-! ## Claim C8: row classification is total and deterministic -/

/-- C8: row classification maps every left-column string to exactly one of the
eight tags (`empty`, `header`, `page_number`, `kan_header`, `kou_header`,
`total`, `moku`, `unknown` — the source's names for empty, header-noise,
page-number, chapter-header, section-header, total-row, item-row, unknown),
never raises (it is a total function), and is deterministic: equal inputs give
equal results. -/
theorem claim_C8 (s : String) :
    (identify_row_type s).1 ∈
      (["empty", "header", "page_number", "kan_header", "kou_header",
        "total", "moku", "unknown"] : List String) ∧
    ∀ t : String, s = t → identify_row_type s = identify_row_type t := by
  constructor
  · unfold identify_row_type
    dsimp only
    repeat' split
    all_goals simp
  · intro t h
    rw [h]

/-- C8 witness at a concrete item row. -/
theorem claim_C8_witness :
    (identify_row_type "1 固定資産税 23,084,800 23,282,800 △198,000").1 ∈
      (["empty", "header", "page_number", "kan_header", "kou_header",
        "total", "moku", "unknown"] : List String) ∧
    identify_row_type "1 固定資産税 23,084,800 23,282,800 △198,000" =
      identify_row_type "1 固定資産税 23,084,800 23,282,800 △198,000" :=
  ⟨(claim_C8 "1 固定資産税 23,084,800 23,282,800 △198,000").1,
   (claim_C8 "1 固定資産税 23,084,800 23,282,800 △198,000").2 _ rfl⟩

/-! ## Claim C9: the assembly pipeline is deterministic -/

/-- C9: the structure-building run is a pure function of the spread stream:
two runs on equal inputs produce structurally identical trees (same chapters,
sections, items, clauses in the same order); no randomness or nondeterministic
ordering enters the fold. -/
theorem claim_C9 (sps₁ sps₂ : List Spread) (h : sps₁ = sps₂) :
    build_budget_structure sps₁ = build_budget_structure sps₂ := by
  rw [h]

/-- C9 witness: two runs on a concrete one-spread input agree. -/
theorem claim_C9_witness :
    ([⟨[⟨0, "1款 あ 5千円"⟩], []⟩] : List Spread) = [⟨[⟨0, "1款 あ 5千円"⟩], []⟩] ∧
    build_budget_structure [⟨[⟨0, "1款 あ 5千円"⟩], []⟩] =
      build_budget_structure [⟨[⟨0, "1款 あ 5千円"⟩], []⟩] :=
  ⟨rfl, claim_C9 _ _ rfl⟩

/-! ## Claim C4: chapter-header handling -/

/-- C4 counterexample: the claim says the current section is reset to none
after every chapter-header row, including one that resumes the open chapter of
the same name.  On the row list [chapter あ, section い, chapter あ] the last
processed row is a chapter-header of the open chapter's name, yet the final
state still has section い open. -/
theorem claim_C4_counterexample :
    identify_row_type "1款 あ 5千円" =
      ("kan_header", some "あ", some ⟨some "1", some 5000, none, none⟩) ∧
    (processSpreads [⟨[⟨0, "1款 あ 5千円"⟩, ⟨10, "1項 い 5千円"⟩,
        ⟨20, "1款 あ 5千円"⟩], []⟩]).currentKou = some "い" ∧
    some "い" ≠ (none : Option String) := by
  refine ⟨by decide, by decide, by decide⟩

/-- C4 (amended): on a chapter-header row, the previously open chapter is
finalized first when its name differs (or none is open), a fresh chapter is
opened, and the current section is reset to none; but when the open chapter
has the same name the row changes nothing — in particular the current section
is NOT reset.  (The claim's "in all cases the current section is reset"
fails on the resume case.) -/
theorem claim_C4 (mokuRows : List Row) (st : BState) (pending : List Setsu)
    (row : Row) (kanName : String) (data : RowData)
    (h : identify_row_type row.left = ("kan_header", some kanName, some data)) :
    (st.currentKan = none →
      stepRow mokuRows (st, pending) row =
        ({ result := st.result, currentKan := some ⟨kanName, data.honnendo, []⟩,
           currentKou := none }, pending)) ∧
    (∀ kan, st.currentKan = some kan → kan.name ≠ kanName →
      stepRow mokuRows (st, pending) row =
        ({ result := st.result ++ [kan],
           currentKan := some ⟨kanName, data.honnendo, []⟩,
           currentKou := none }, pending)) ∧
    (∀ kan, st.currentKan = some kan → kan.name = kanName →
      stepRow mokuRows (st, pending) row = (st, pending)) := by
  refine ⟨?_, ?_, ?_⟩
  · intro hk
    simp [stepRow, h, hk]
  · intro kan hk hne
    simp [stepRow, h, hk, hne]
  · intro kan hk he
    simp [stepRow, h, hk, he]

/-- C4 witness: a chapter-header row resuming the open chapter あ leaves the
state (including the open section い) unchanged. -/
theorem claim_C4_witness :
    identify_row_type "1款 あ 5千円" =
      ("kan_header", some "あ", some ⟨some "1", some 5000, none, none⟩) ∧
    (⟨[], some ⟨"あ", some 5000, []⟩, some "い"⟩ : BState).currentKan =
      some ⟨"あ", some 5000, []⟩ ∧
    (⟨"あ", some 5000, []⟩ : Kan).name = "あ" ∧
    stepRow [] ((⟨[], some ⟨"あ", some 5000, []⟩, some "い"⟩ : BState), []) ⟨0, "1款 あ 5千円"⟩ =
      ((⟨[], some ⟨"あ", some 5000, []⟩, some "い"⟩ : BState), []) :=
  ⟨by decide, rfl, rfl,
   (claim_C4 [] ⟨[], some ⟨"あ", some 5000, []⟩, some "い"⟩ [] ⟨0, "1款 あ 5千円"⟩
       "あ" ⟨some "1", some 5000, none, none⟩ (by decide)).2.2
     ⟨"あ", some 5000, []⟩ rfl rfl⟩


/-! ## Claim C10: duplicate sub-item lines in the rationale structurer -/

/-- Updating an entry in place preserves the key list of the rationale
dictionary. -/
theorem updItem_map_fst (key : String) (f : ItemRecord → ItemRecord) :
    ∀ l : List (String × ItemRecord), (updItem key f l).map Prod.fst = l.map Prod.fst := by
  intro l
  induction l with
  | nil => rfl
  | cons p rest ih =>
    rw [updItem]
    by_cases h : p.1 = key
    · simp [h]
    · simp [h, ih]

/-- C10: a rationale line of the form `<name> <amount>` whose name differs
from the clause name but already has a record in the mapping is ignored
entirely: the step returns the state unchanged — the first occurrence's
amount is not overwritten and the currently open sub-item does not change.
Moreover every step preserves uniqueness of the sub-item keys, so each
sub-item name maps to exactly one record. -/
theorem claim_C10 :
    (∀ (setsuName : String) (st : PSState) (line : String) (caps : Caps) (v : Int),
      pyStrip line ≠ "" →
      containsSub (pyStrip line) "調定見込額" = false →
      containsSub (pyStrip line) "算定標準額" = false →
      reMatch setsumeiItemRe (pyStrip line) = some caps →
      pyInt (pyReplace (capGroup caps 2) "," "") = some v →
      pyStrip (capGroup caps 1) ≠ setsuName →
      (st.result.find? (fun p => p.1 = pyStrip (capGroup caps 1))).isSome →
      parse_setsumei_step setsuName st line = some st) ∧
    (∀ (setsuName : String) (st : PSState) (line : String) (st' : PSState),
      (st.result.map Prod.fst).Nodup →
      parse_setsumei_step setsuName st line = some st' →
      (st'.result.map Prod.fst).Nodup) := by
  constructor
  · intro setsuName st line caps v hne hc1 hc2 hm hv hdiff hmem
    rw [parse_setsumei_step]
    simp only [hne, if_neg, if_false, hc1, hc2, Bool.or_self, hm, hv,
      hdiff, hmem, if_pos]
    simp
  · intro setsuName st line st' hnd hstep
    rw [parse_setsumei_step] at hstep
    by_cases hne : pyStrip line = ""
    · simp only [hne, if_pos] at hstep
      cases hstep
      exact hnd
    · simp only [hne, if_neg, if_false] at hstep
      by_cases hc : (containsSub (pyStrip line) "調定見込額" ||
          containsSub (pyStrip line) "算定標準額") = true
      · simp only [hc, if_pos] at hstep
        rcases hcur : st.currentItemName with _ | n
        · rw [hcur] at hstep
          cases hstep
          exact hnd
        · rw [hcur] at hstep
          by_cases hf : (st.result.find? (fun p => p.1 = n)).isSome
          · simp only [hf, if_pos] at hstep
            cases hstep
            simpa [updItem_map_fst] using hnd
          · simp only [hf, if_neg, if_false, Bool.false_eq_true] at hstep
            cases hstep
            exact hnd
      · simp only [hc, if_neg, if_false, Bool.false_eq_true] at hstep
        rcases hm : reMatch setsumeiItemRe (pyStrip line) with _ | caps
        · simp only [hm] at hstep
          rcases hcur : st.currentItemName with _ | n
          · rw [hcur] at hstep
            cases hstep
            exact hnd
          · rw [hcur] at hstep
            by_cases hf : (st.result.find? (fun p => p.1 = n)).isSome
            · simp only [hf, if_pos] at hstep
              cases hstep
              simpa [updItem_map_fst] using hnd
            · simp only [hf, if_neg, if_false, Bool.false_eq_true] at hstep
              cases hstep
              exact hnd
        · simp only [hm] at hstep
          rcases hv : pyInt (pyReplace (capGroup caps 2) "," "") with _ | v
          · simp only [hv] at hstep
            exact absurd hstep (by simp)
          · simp only [hv] at hstep
            by_cases hs : pyStrip (capGroup caps 1) = setsuName
            · simp only [hs, if_pos] at hstep
              cases hstep
              exact hnd
            · simp only [hs, if_neg, if_false] at hstep
              by_cases hf : (st.result.find? (fun p => p.1 = pyStrip (capGroup caps 1))).isSome
              · simp only [hf, if_pos] at hstep
                cases hstep
                exact hnd
              · simp only [hf, if_neg, if_false, Bool.false_eq_true] at hstep
                cases hstep
                have hfnone : (st.result.find? (fun p => p.1 = pyStrip (capGroup caps 1))) = none := by
                  rcases hh : st.result.find? (fun p => p.1 = pyStrip (capGroup caps 1)) with _ | q
                  · exact hh
                  · exact absurd (by simp [hh]) hf
                have hnotmem : pyStrip (capGroup caps 1) ∉ st.result.map Prod.fst := by
                  intro hmem
                  rcases List.mem_map.mp hmem with ⟨p, hp, hfst⟩
                  have h3 := List.find?_eq_none.mp hfnone p hp
                  simp [hfst] at h3
                simp only [PSState.result, List.map_append, List.map_cons, List.map_nil]
                rw [List.nodup_append]
                refine ⟨hnd, List.nodup_singleton _, fun a ha hb => ?_⟩
                simp only [List.mem_singleton] at hb
                subst hb
                exact hnotmem ha

/-- C10 witness: with sub-item aa already recorded (amount 100000) and open,
the later line "aa 200" is ignored: the state is returned unchanged. -/
theorem claim_C10_witness :
    pyStrip "aa 200" ≠ "" ∧
    reMatch setsumeiItemRe (pyStrip "aa 200") =
      some [(2, ['2', '0', '0']), (1, ['a', 'a'])] ∧
    parse_setsumei_step "s"
      ⟨[("aa", ⟨some 100000, none, none, none⟩)], some "aa", ⟨none, none⟩⟩ "aa 200" =
      some ⟨[("aa", ⟨some 100000, none, none, none⟩)], some "aa", ⟨none, none⟩⟩ :=
  ⟨by decide, by decide,
   claim_C10.1 "s" ⟨[("aa", ⟨some 100000, none, none, none⟩)], some "aa", ⟨none, none⟩⟩
     "aa 200" [(2, ['2', '0', '0']), (1, ['a', 'a'])] 200
     (by decide) (by decide) (by decide) (by decide) (by decide) (by decide) (by decide)⟩


/-! ## Claim C3: the clause extractor's token scan -/

/-- C3 counterexample: on the row "1 aa 50 200" the extractor emits the single
clause named "aa50" with amount 200000 — the numeric token 50, below the
threshold, is accumulated into the name, where the claim's "accumulates
following non-numeric tokens as the name" predicts the name "aa". -/
theorem claim_C3_counterexample :
    parse_right_setsu "1 aa 50 200" = .ok [⟨"aa50", 200000, ""⟩] ∧
    pyIsdigit "50" = true ∧ ("aa50" : String) ≠ "aa" :=
  ⟨by decide, by decide, by decide⟩

/-- C3 (amended): a candidate clause starts at an all-digit token; ALL
following tokens — non-numeric ones and numeric ones whose parsed value is
below the threshold alike — accumulate into the name until the first
`[0-9,]`-token whose comma-stripped value is at least 100 (in thousand units),
which becomes the clause amount × 1000; the remaining tokens form the first
rationale line; and scanning resumes right after the consumed amount token,
so one row can yield several clauses.  Part one characterizes the inner scan,
part two the emission-and-resume step of the outer loop. -/
theorem claim_C3 :
    (∀ (l ns : List String) (a : Int) (after : List String),
      scanName l = .ok (ns, some (a, after)) →
      ∃ t v, l = ns ++ t :: after ∧ (reMatch amountTokRe t).isSome = true ∧
        pyInt (pyReplace t "," "") = some v ∧ 100 ≤ v ∧ a = v * 1000 ∧
        ∀ u ∈ ns, ∀ w : Int, (reMatch amountTokRe u).isSome = true →
          pyInt (pyReplace u "," "") = some w → w < 100) ∧
    (∀ (fuel : Nat) (tk : String) (rest names : List String) (amt : Int)
        (after : List String),
      (tk :: rest).length < fuel →
      pyIsdigit tk = true →
      scanName rest = .ok (names, some (amt, after)) →
      names.isEmpty = false →
      parse_right_setsu_go fuel (tk :: rest) =
        (parse_right_setsu_go fuel after).map
          (fun tail => ⟨String.join names, amt, " ".intercalate after⟩ :: tail)) := by
  constructor
  · intro l
    induction l with
    | nil =>
      intro ns a after h
      rw [scanName] at h
      exact absurd h (by simp)
    | cons t rest ih =>
      intro ns a after h
      rw [scanName] at h
      by_cases htok : (reMatch amountTokRe t).isSome = true
      · simp only [htok, if_pos] at h
        rcases hv : pyInt (pyReplace t "," "") with _ | v
        · rw [hv] at h
          exact absurd h (by simp)
        · rw [hv] at h
          by_cases hge : 100 ≤ v
          · simp only [hge, if_pos] at h
            simp only [Except.ok.injEq, Prod.mk.injEq, Option.some.injEq] at h
            obtain ⟨hns, ha, hafter⟩ := h
            subst hns
            subst ha
            subst hafter
            exact ⟨t, v, rfl, htok, hv, hge, rfl, by simp⟩
          · simp only [hge, if_neg, if_false] at h
            rcases hrec : scanName rest with e | pr
            · rw [hrec] at h
              exact absurd h (by simp)
            · obtain ⟨ns', r⟩ := pr
              rw [hrec] at h
              simp only [Except.ok.injEq, Prod.mk.injEq] at h
              obtain ⟨hns, hr⟩ := h
              subst hr
              obtain ⟨t', v', hl, htok', hv', hge', ha, hall⟩ := ih ns' a after hrec
              refine ⟨t', v', ?_, htok', hv', hge', ha, ?_⟩
              · rw [← hns, hl]
                simp
              · intro u hu w hutok huv
                rw [← hns] at hu
                rcases List.mem_cons.mp hu with rfl | hu'
                · rw [hv] at huv
                  have hvw : v = w := by injection huv
                  omega
                · exact hall u hu' w hutok huv
      · simp only [htok, if_neg, if_false, Bool.false_eq_true] at h
        rcases hrec : scanName rest with e | pr
        · rw [hrec] at h
          exact absurd h (by simp)
        · obtain ⟨ns', r⟩ := pr
          rw [hrec] at h
          simp only [Except.ok.injEq, Prod.mk.injEq] at h
          obtain ⟨hns, hr⟩ := h
          subst hr
          obtain ⟨t', v', hl, htok', hv', hge', ha, hall⟩ := ih ns' a after hrec
          refine ⟨t', v', ?_, htok', hv', hge', ha, ?_⟩
          · rw [← hns, hl]
            simp
          · intro u hu w hutok huv
            rw [← hns] at hu
            rcases List.mem_cons.mp hu with rfl | hu'
            · exact absurd hutok htok
            · exact hall u hu' w hutok huv
  · intro fuel tk rest names amt after hlen hd hs hn
    match fuel with
    | 0 => simp at hlen
    | f + 1 =>
      rw [parse_right_setsu_go]
      simp only [hd, if_pos, hs, hn, if_neg, if_false, Bool.false_eq_true]
      have hafter : after.length < f := by
        have := scanName_after_length rest names amt after hs
        simp only [List.length_cons] at hlen
        omega
      rw [parse_right_setsu_go_congr f (f + 1) after hafter (by omega)]
      rcases hres : parse_right_setsu_go (f + 1) after with e | tail
      · simp [Except.map]
      · simp [Except.map]

/-- C3 witness: on the row "1 aa 200 2 bb 300" the scan finds amount token
"200" after name part "aa", emits the clause and resumes at "2", yielding a
second clause — two clauses from one row. -/
theorem claim_C3_witness :
    scanName ["aa", "200", "2", "bb", "300"] =
      .ok (["aa"], some (200000, ["2", "bb", "300"])) ∧
    pyIsdigit "1" = true ∧
    (["aa"] : List String).isEmpty = false ∧
    parse_right_setsu_go 7 ["1", "aa", "200", "2", "bb", "300"] =
      (parse_right_setsu_go 7 ["2", "bb", "300"]).map
        (fun tail => ⟨String.join ["aa"], 200000, " ".intercalate ["2", "bb", "300"]⟩ :: tail) ∧
    parse_right_setsu "1 aa 200 2 bb 300" =
      .ok [⟨"aa", 200000, "2 bb 300"⟩, ⟨"bb", 300000, ""⟩] :=
  ⟨by decide, by decide, by decide,
   claim_C3.2 7 "1" ["aa", "200", "2", "bb", "300"] ["aa"] 200000 ["2", "bb", "300"]
     (by decide) (by decide) (by decide) (by decide),
   by decide⟩


/-! ## Claim C6: section headers and uniqueness of section names -/

/-- Appending one item through the `current_kou` reference preserves the list
of section names of a chapter. -/
theorem updKou_append_moku_names (n : String) (entry : String × MokuData) :
    ∀ l : List Kou,
      (updKou n (fun k => { k with moku := k.moku ++ [entry] }) l).map (fun k => k.name) =
        l.map (fun k => k.name) := by
  intro l
  induction l with
  | nil => rfl
  | cons k rest ih =>
    rw [updKou]
    by_cases h : k.name = n
    · simp [h]
    · simp [h, ih]

/-- Every assembler row step preserves uniqueness of section names within
every chapter of the state. -/
theorem stepRow_nodup (mokuRows : List Row) (acc : BState × List Setsu) (row : Row)
    (h : StateNodup acc.1) : StateNodup (stepRow mokuRows acc row).1 := by
  obtain ⟨h1, h2⟩ := h
  rw [stepRow]
  split
  · -- chapter header
    split
    · -- no open chapter: fresh empty chapter
      refine ⟨h1, ?_⟩
      intro kan hkan
      simp only [Option.some.injEq] at hkan
      subst hkan
      simp [KanNodup]
    · -- open chapter
      split
      · exact ⟨h1, h2⟩
      · rename_i kan0 hk hne
        constructor
        · intro kan hkan
          rcases List.mem_append.mp hkan with hmem | hmem
          · exact h1 kan hmem
          · simp only [List.mem_singleton] at hmem
            subst hmem
            exact h2 _ hk
        · intro kan hkan
          simp only [Option.some.injEq] at hkan
          subst hkan
          simp [KanNodup]
  · -- section header
    split
    · split
      · exact ⟨h1, h2⟩
      · rename_i kan0 hk hf
        refine ⟨h1, ?_⟩
        intro kan hkan
        simp only [Option.some.injEq] at hkan
        subst hkan
        have hnd0 := h2 kan0 hk
        rw [KanNodup] at hnd0 ⊢
        simp only [List.map_append, List.map_cons, List.map_nil]
        rw [List.nodup_append]
        refine ⟨hnd0, List.nodup_singleton _, fun a ha hb => ?_⟩
        simp only [List.mem_singleton] at hb
        subst hb
        rcases List.mem_map.mp ha with ⟨k, hk', hname⟩
        have hfnone : (kan0.kou.find? (fun k => k.name = a)) = none := by
          rcases hh : kan0.kou.find? (fun k => k.name = a) with _ | q
          · exact hh
          · exact absurd (by simp [hh]) hf
        have h3 := List.find?_eq_none.mp hfnone k hk'
        simp [hname] at h3
    · exact ⟨h1, h2⟩
  · -- item row
    split
    · rename_i kouName kan0 hkou hkan
      refine ⟨h1, ?_⟩
      intro kan hkan'
      simp only [Option.some.injEq] at hkan'
      subst hkan'
      have hnd0 := h2 kan0 hkan
      rw [KanNodup] at hnd0 ⊢
      rw [updKou_append_moku_names]
      exact hnd0
    · exact ⟨h1, h2⟩
  · exact ⟨h1, h2⟩

/-- The empty assembler state has no duplicate section names. -/
theorem initState_nodup : StateNodup initState := by
  constructor
  · intro kan h
    simp [initState] at h
  · intro kan h
    simp [initState] at h

/-- The row loop of one spread preserves uniqueness of section names. -/
theorem foldlRows_nodup (mokuRows : List Row) (rows : List Row) :
    ∀ acc : BState × List Setsu, StateNodup acc.1 →
      StateNodup ((rows.foldl (stepRow mokuRows) acc)).1 := by
  induction rows with
  | nil => intro acc h; exact h
  | cons r rs ih =>
    intro acc h
    rw [List.foldl_cons]
    exact ih _ (stepRow_nodup mokuRows acc r h)

/-- Spread processing preserves uniqueness of section names. -/
theorem processSpread_nodup (st : BState) (sp : Spread) (h : StateNodup st) :
    StateNodup (processSpread st sp) :=
  foldlRows_nodup _ _ _ h

/-- The spread loop preserves uniqueness of section names from any start
state. -/
theorem processSpreads_nodup_from : ∀ (sps : List Spread) (st : BState), StateNodup st →
    StateNodup (sps.foldl processSpread st) := by
  intro sps
  induction sps with
  | nil => intro st h; exact h
  | cons sp rest ih => intro st h; exact ih _ (processSpread_nodup st sp h)

/-- C6: on a section-header row with an open chapter, a section of that name
already under the chapter is resumed as current without appending a duplicate
(the section list is unchanged), and an absent name is created, appended and
made current; together with preservation of name-uniqueness by every row step
(from the empty initial state onward), section names stay unique within their
chapter at every point of the assembly. -/
theorem claim_C6 :
    (∀ (mokuRows : List Row) (st : BState) (pending : List Setsu) (row : Row)
        (kouName : String) (data : RowData) (kan : Kan),
      identify_row_type row.left = ("kou_header", some kouName, some data) →
      st.currentKan = some kan →
      (((kan.kou.find? (fun k => k.name = kouName)).isSome = true →
          stepRow mokuRows (st, pending) row = ({ st with currentKou := some kouName }, pending)) ∧
       ((kan.kou.find? (fun k => k.name = kouName)).isSome = false →
          stepRow mokuRows (st, pending) row =
            ({ st with
                 currentKan := some { kan with kou := kan.kou ++ [⟨kouName, data.honnendo, []⟩] },
                 currentKou := some kouName }, pending)))) ∧
    StateNodup initState ∧
    (∀ (mokuRows : List Row) (acc : BState × List Setsu) (row : Row),
      StateNodup acc.1 → StateNodup (stepRow mokuRows acc row).1) ∧
    (∀ sps : List Spread, StateNodup (processSpreads sps)) := by
  refine ⟨?_, initState_nodup, stepRow_nodup, ?_⟩
  · intro mokuRows st pending row kouName data kan hid hkan
    constructor
    · intro hf
      simp [stepRow, hid, hkan, hf]
    · intro hf
      simp [stepRow, hid, hkan, hf]
  · intro sps
    exact processSpreads_nodup_from sps initState initState_nodup

/-- C6 witness: with chapter あ open and holding section い, the
section-header row for い resumes it: the section becomes current and the
section list is unchanged (no duplicate appended). -/
theorem claim_C6_witness :
    identify_row_type "1項 い 5千円" =
      ("kou_header", some "い", some ⟨some "1", some 5000, none, none⟩) ∧
    ((⟨"あ", some 5000, [⟨"い", some 5000, []⟩]⟩ : Kan).kou.find?
        (fun k => k.name = "い")).isSome = true ∧
    stepRow [] ((⟨[], some ⟨"あ", some 5000, [⟨"い", some 5000, []⟩]⟩, none⟩ : BState), [])
        ⟨10, "1項 い 5千円"⟩ =
      ((⟨[], some ⟨"あ", some 5000, [⟨"い", some 5000, []⟩]⟩, some "い"⟩ : BState), []) :=
  ⟨by decide, by decide,
   (claim_C6.1 [] ⟨[], some ⟨"あ", some 5000, [⟨"い", some 5000, []⟩]⟩, none⟩ []
       ⟨10, "1項 い 5千円"⟩ "い" ⟨some "1", some 5000, none, none⟩
       ⟨"あ", some 5000, [⟨"い", some 5000, []⟩]⟩ (by decide) rfl).1 (by decide)⟩


/-! ## Claims C1, C2, C5: clause claiming and the pending list -/

/-- The pending clause list after one row step: filtered by the claim
predicate when the step is an item-row step with an open section, unchanged
otherwise. -/
theorem stepRow_pending (mokuRows : List Row) (st : BState) (row : Row) :
    ∀ p : List Setsu, (stepRow mokuRows (st, p) row).2 =
      pendingFilter (stepRow_claims mokuRows st row) p := by
  intro p
  rw [stepRow]
  split
  · rename_i heq
    split
    · simp [stepRow_claims, pendingFilter, heq]
    · split <;> simp [stepRow_claims, pendingFilter, heq]
  · rename_i heq
    split
    · split <;> simp [stepRow_claims, pendingFilter, heq]
    · simp [stepRow_claims, pendingFilter, heq]
  · rename_i heq
    rcases hkou : st.currentKou with _ | kn <;> rcases hkan : st.currentKan with _ | k0 <;>
      simp [stepRow_claims, pendingFilter, heq, hkou, hkan]
  · rename_i h1 h2 h3
    rw [stepRow_claims]
    split
    · rename_i heqm
      exact absurd heqm (h3 _ _)
    · simp [pendingFilter]

/-- When a row step carries a claim predicate, the predicate is the claim
interval test of that row and the row is an item row. -/
theorem stepRow_claims_some (mokuRows : List Row) (st : BState) (row : Row)
    (cond : Setsu → Bool) (h : stepRow_claims mokuRows st row = some cond) :
    cond = claimCond row.y (nextMokuY mokuRows row.y) ∧
    (identify_row_type row.left).1 = "moku" := by
  rw [stepRow_claims] at h
  split at h
  · rename_i heq
    split at h
    · exact ⟨by injection h with h'; exact h'.symm, by rw [heq]⟩
    · exact absurd h (by simp)
  · exact absurd h (by simp)

/-- Removing a clause that no interval of the row claims does not change the
tree state produced by the step. -/
theorem stepRow_state_erase (mokuRows : List Row) (st : BState) (row : Row)
    (s : Setsu) (pre post : List Setsu)
    (hc : (identify_row_type row.left).1 = "moku" →
      claimCond row.y (nextMokuY mokuRows row.y) s = false) :
    (stepRow mokuRows (st, pre ++ s :: post) row).1 =
      (stepRow mokuRows (st, pre ++ post) row).1 := by
  conv_lhs => rw [stepRow]
  split
  · rename_i kanName data heq
    simp only [stepRow, heq]
    cases st.currentKan with
    | none => rfl
    | some kan =>
      by_cases hn : kan.name = kanName <;> simp [hn]
  · rename_i kouName data heq
    simp only [stepRow, heq]
    cases st.currentKan with
    | none => rfl
    | some kan =>
      by_cases hf : (kan.kou.find? (fun k => k.name = kouName)).isSome = true <;> simp [hf]
  · rename_i heq
    have hcs : claimCond row.y (nextMokuY mokuRows row.y) s = false := hc (by rw [heq])
    have hfil : (pre ++ s :: post).filter (claimCond row.y (nextMokuY mokuRows row.y)) =
        (pre ++ post).filter (claimCond row.y (nextMokuY mokuRows row.y)) := by
      simp [List.filter_append, hcs]
    rcases hkou : st.currentKou with _ | kn <;> rcases hkan : st.currentKan with _ | k0 <;>
      simp only [stepRow, heq, hkou, hkan, hfil]
  · rename_i h1 h2 h3
    rw [stepRow]
    split
    · rename_i heq
      exact absurd heq (h1 _ _)
    · rename_i heq
      exact absurd heq (h2 _ _)
    · rename_i heq
      exact absurd heq (h3 _ _)
    · rfl
/-- Removing a clause that no item row of the spread claims does not change
the tree state produced by the spread's row loop. -/
theorem foldl_stepRow_erase (mokuRows : List Row) (s : Setsu) :
    ∀ rows : List Row,
      (∀ r ∈ rows, (identify_row_type r.left).1 = "moku" →
        claimCond r.y (nextMokuY mokuRows r.y) s = false) →
      ∀ (st : BState) (pre post : List Setsu),
        (rows.foldl (stepRow mokuRows) (st, pre ++ s :: post)).1 =
          (rows.foldl (stepRow mokuRows) (st, pre ++ post)).1 := by
  intro rows
  induction rows with
  | nil =>
    intro _ st pre post
    rfl
  | cons r rs ih =>
    intro hc st pre post
    rw [List.foldl_cons, List.foldl_cons]
    have hstate := stepRow_state_erase mokuRows st r s pre post
      (hc r (List.mem_cons_self r rs))
    have hp1 := stepRow_pending mokuRows st r (pre ++ s :: post)
    have hp2 := stepRow_pending mokuRows st r (pre ++ post)
    rcases hcl : stepRow_claims mokuRows st r with _ | cond
    · rw [hcl] at hp1 hp2
      simp only [pendingFilter] at hp1 hp2
      have hA : stepRow mokuRows (st, pre ++ s :: post) r =
          ((stepRow mokuRows (st, pre ++ post) r).1, pre ++ s :: post) :=
        Prod.ext hstate hp1
      have hB : stepRow mokuRows (st, pre ++ post) r =
          ((stepRow mokuRows (st, pre ++ post) r).1, pre ++ post) :=
        Prod.ext rfl hp2
      rw [hA, hB]
      exact ih (fun r' hr' => hc r' (List.mem_cons_of_mem r hr')) _ pre post
    · obtain ⟨hcond, hmoku⟩ := stepRow_claims_some mokuRows st r cond hcl
      have hcs : cond s = false := by
        rw [hcond]
        exact hc r (List.mem_cons_self r rs) hmoku
      rw [hcl] at hp1 hp2
      simp only [pendingFilter] at hp1 hp2
      have hp1' : (stepRow mokuRows (st, pre ++ s :: post) r).2 =
          pre.filter (fun x => !cond x) ++ s :: post.filter (fun x => !cond x) := by
        rw [hp1]
        simp [List.filter_append, hcs]
      have hA : stepRow mokuRows (st, pre ++ s :: post) r =
          ((stepRow mokuRows (st, pre ++ post) r).1,
            pre.filter (fun x => !cond x) ++ s :: post.filter (fun x => !cond x)) :=
        Prod.ext hstate hp1'
      have hB : stepRow mokuRows (st, pre ++ post) r =
          ((stepRow mokuRows (st, pre ++ post) r).1,
            pre.filter (fun x => !cond x) ++ post.filter (fun x => !cond x)) :=
        Prod.ext rfl (by rw [hp2]; simp [List.filter_append])
      rw [hA, hB]
      exact ih (fun r' hr' => hc r' (List.mem_cons_of_mem r hr')) _ _ _

/-- A clause whose anchor falls outside every item row's claim condition of
its spread contributes nothing: processing the spread with the clause removed
gives the same state. -/
theorem processSpread_erase (st : BState) (sp : Spread) (pre post : List Setsu) (s : Setsu)
    (hsp : sp.setsuList = pre ++ s :: post)
    (hc : ∀ r ∈ sp.leftRows, (identify_row_type r.left).1 = "moku" →
      claimCond r.y (nextMokuY (mokuRowsOf sp) r.y) s = false) :
    processSpread st sp = processSpread st ⟨sp.leftRows, pre ++ post⟩ := by
  rw [processSpread, processSpread]
  have hmr : mokuRowsOf (⟨sp.leftRows, pre ++ post⟩ : Spread) = mokuRowsOf sp := rfl
  rw [hmr, hsp]
  exact foldl_stepRow_erase (mokuRowsOf sp) s sp.leftRows hc st pre post
/-- C1 (amended): a clause whose anchor falls outside every item row's claim
interval of its own spread is dropped with that spread: removing it from the
spread leaves the output of the whole multi-spread run unchanged — in
particular it is NOT carried forward in any pending state and NOT retried
against the next spread's first item row.  (The claim's carry-forward-and-
retry behaviour is refuted by the counterexample below: the pending list is
re-initialized from each spread's own right page.) -/
theorem claim_C1 (sps₁ sps₂ : List Spread) (sp : Spread) (pre post : List Setsu) (s : Setsu)
    (hsp : sp.setsuList = pre ++ s :: post)
    (hc : ∀ r ∈ sp.leftRows, (identify_row_type r.left).1 = "moku" →
      claimCond r.y (nextMokuY (mokuRowsOf sp) r.y) s = false) :
    build_budget_structure (sps₁ ++ sp :: sps₂) =
      build_budget_structure (sps₁ ++ (⟨sp.leftRows, pre ++ post⟩ : Spread) :: sps₂) := by
  rw [build_budget_structure, build_budget_structure, processSpreads, processSpreads]
  rw [List.foldl_append, List.foldl_append, List.foldl_cons, List.foldl_cons]
  rw [processSpread_erase _ sp pre post s hsp hc]

/-- C1 witness: the unclaimed clause s of the first spread can be removed
without changing the two-spread output. -/
theorem claim_C1_witness :
    ((⟨[⟨0, "1款 あ 5千円"⟩, ⟨10, "1項 い 5千円"⟩, ⟨100, "1 う 5 5 0"⟩],
        [⟨"s", 5000, 0, .dict [] none⟩]⟩ : Spread).setsuList =
      [] ++ ⟨"s", 5000, 0, .dict [] none⟩ :: []) ∧
    (∀ r ∈ (⟨[⟨0, "1款 あ 5千円"⟩, ⟨10, "1項 い 5千円"⟩, ⟨100, "1 う 5 5 0"⟩],
        [⟨"s", 5000, 0, .dict [] none⟩]⟩ : Spread).leftRows,
      (identify_row_type r.left).1 = "moku" →
      claimCond r.y (nextMokuY (mokuRowsOf ⟨[⟨0, "1款 あ 5千円"⟩, ⟨10, "1項 い 5千円"⟩,
        ⟨100, "1 う 5 5 0"⟩], [⟨"s", 5000, 0, .dict [] none⟩]⟩) r.y)
        ⟨"s", 5000, 0, .dict [] none⟩ = false) ∧
    build_budget_structure
        [⟨[⟨0, "1款 あ 5千円"⟩, ⟨10, "1項 い 5千円"⟩, ⟨100, "1 う 5 5 0"⟩],
          [⟨"s", 5000, 0, .dict [] none⟩]⟩, ⟨[⟨0, "2 え 6 6 0"⟩], []⟩] =
      build_budget_structure
        [⟨[⟨0, "1款 あ 5千円"⟩, ⟨10, "1項 い 5千円"⟩, ⟨100, "1 う 5 5 0"⟩], []⟩,
          ⟨[⟨0, "2 え 6 6 0"⟩], []⟩] :=
  ⟨rfl, by decide,
   claim_C1 [] [⟨[⟨0, "2 え 6 6 0"⟩], []⟩]
     ⟨[⟨0, "1款 あ 5千円"⟩, ⟨10, "1項 い 5千円"⟩, ⟨100, "1 う 5 5 0"⟩],
       [⟨"s", 5000, 0, .dict [] none⟩]⟩ [] [] ⟨"s", 5000, 0, .dict [] none⟩ rfl (by decide)⟩

/-- C1 counterexample: on spread one, clause s (anchor y = 0) falls outside
the claim interval of the only item row (y = 100, interval [80, ∞)); the next
spread's first item row (y = 0, interval [-20, ∞)) would claim it if it were
retried; yet the output of the two-spread run attaches no clause to any item:
s was dropped at the end of its spread, not carried forward. -/
theorem claim_C1_counterexample :
    claimCond 100 (nextMokuY (mokuRowsOf ⟨[⟨0, "1款 あ 5千円"⟩, ⟨10, "1項 い 5千円"⟩,
        ⟨100, "1 う 5 5 0"⟩], [⟨"s", 5000, 0, .dict [] none⟩]⟩) 100)
      ⟨"s", 5000, 0, .dict [] none⟩ = false ∧
    claimCond 0 (nextMokuY (mokuRowsOf ⟨[⟨0, "2 え 6 6 0"⟩], []⟩) 0)
      ⟨"s", 5000, 0, .dict [] none⟩ = true ∧
    build_budget_structure
        [⟨[⟨0, "1款 あ 5千円"⟩, ⟨10, "1項 い 5千円"⟩, ⟨100, "1 う 5 5 0"⟩],
          [⟨"s", 5000, 0, .dict [] none⟩]⟩, ⟨[⟨0, "2 え 6 6 0"⟩], []⟩] =
      [⟨"あ", some 5000,
        [⟨"い", some 5000,
          [("う", ⟨some 5000, some 5000, some 0, none⟩),
           ("え", ⟨some 6000, some 6000, some 0, none⟩)]⟩]⟩] :=
  ⟨by decide, by decide, by decide⟩

/-- C5: a clause anchored strictly above the first item row's claim interval
of a spread (rows sorted by y, no pending item from an earlier spread — the
pending list starts from the spread's own clauses) is silently dropped:
processing the spread equals processing it with the clause removed, and since
the embedding is a total function no exception is raised and processing
continues with the next spread. -/
theorem claim_C5 (st : BState) (sp : Spread) (pre post : List Setsu) (s : Setsu)
    (r₀ : Row) (rest : List Row)
    (hsort : sp.leftRows.Pairwise (fun a b => a.y ≤ b.y))
    (hsp : sp.setsuList = pre ++ s :: post)
    (hm : mokuRowsOf sp = r₀ :: rest)
    (hy : s.yStart < r₀.y - 20) :
    processSpread st sp = processSpread st ⟨sp.leftRows, pre ++ post⟩ := by
  apply processSpread_erase st sp pre post s hsp
  intro r hr hmoku
  have hrm : r ∈ mokuRowsOf sp := List.mem_filter.mpr ⟨hr, by simp [hmoku]⟩
  have hpair : (mokuRowsOf sp).Pairwise (fun a b => a.y ≤ b.y) :=
    hsort.sublist (List.filter_sublist _)
  rw [hm] at hpair hrm
  have hy0 : r₀.y ≤ r.y := by
    rcases List.mem_cons.mp hrm with rfl | hr'
    · exact le_refl _
    · exact (List.pairwise_cons.mp hpair).1 r hr'
  have hnot : ¬(r.y - 20 ≤ s.yStart) := by omega
  simp [claimCond.eq_def, hnot]

/-- C5 witness: the clause anchored at y = 0, above the first item row at
y = 100, is dropped from a concrete spread. -/
theorem claim_C5_witness :
    ((⟨[⟨0, "1款 あ 5千円"⟩, ⟨10, "1項 い 5千円"⟩, ⟨100, "1 う 5 5 0"⟩],
        [⟨"s", 5000, 0, .dict [] none⟩]⟩ : Spread).leftRows.Pairwise
      (fun a b => a.y ≤ b.y)) ∧
    mokuRowsOf (⟨[⟨0, "1款 あ 5千円"⟩, ⟨10, "1項 い 5千円"⟩, ⟨100, "1 う 5 5 0"⟩],
        [⟨"s", 5000, 0, .dict [] none⟩]⟩ : Spread) = [⟨100, "1 う 5 5 0"⟩] ∧
    ((⟨"s", 5000, 0, .dict [] none⟩ : Setsu).yStart < (100 : Int) - 20) ∧
    processSpread initState
        ⟨[⟨0, "1款 あ 5千円"⟩, ⟨10, "1項 い 5千円"⟩, ⟨100, "1 う 5 5 0"⟩],
          [⟨"s", 5000, 0, .dict [] none⟩]⟩ =
      processSpread initState
        ⟨[⟨0, "1款 あ 5千円"⟩, ⟨10, "1項 い 5千円"⟩, ⟨100, "1 う 5 5 0"⟩], []⟩ :=
  ⟨by decide, by decide, by decide,
   claim_C5 initState
     ⟨[⟨0, "1款 あ 5千円"⟩, ⟨10, "1項 い 5千円"⟩, ⟨100, "1 う 5 5 0"⟩],
       [⟨"s", 5000, 0, .dict [] none⟩]⟩ [] [] ⟨"s", 5000, 0, .dict [] none⟩
     ⟨100, "1 う 5 5 0"⟩ [] (by decide) rfl (by decide) (by decide)⟩
/-- The claimed and still-pending clauses of one item step partition the
pending list, also counted as clause entries. -/
theorem count_filter_partition (e : String × SetsuOut) (cond : Setsu → Bool) :
    ∀ l : List Setsu,
      ((l.filter cond).map setsuEntryOf).count e +
        ((l.filter (fun s => !cond s)).map setsuEntryOf).count e =
        (l.map setsuEntryOf).count e := by
  intro l
  induction l with
  | nil => rfl
  | cons x xs ih =>
    by_cases hx : cond x = true
    · simp only [List.filter_cons, hx, if_pos, Bool.not_true, if_neg, List.map_cons,
        List.count_cons, Bool.false_eq_true, if_false]
      omega
    · simp only [List.filter_cons, hx, Bool.not_eq_true', if_neg, List.map_cons,
        List.count_cons, Bool.false_eq_true, if_false]
      simp only [Bool.not_eq_true] at hx
      simp only [hx, if_pos, List.map_cons, List.count_cons]
      omega

/-- Appending one item to a section adds exactly that item's clause-entry
count. -/
theorem countKou_append_moku (e : String × SetsuOut) (k : Kou) (m : String × MokuData) :
    countKou e { k with moku := k.moku ++ [m] } = countKou e k + countMoku e m := by
  simp [countKou]

/-- Updating (at most) one section in place adds at most the update's
clause-entry increment to the chapter total. -/
theorem updKou_count_le (e : String × SetsuOut) (n : String) (f : Kou → Kou) (δ : Nat)
    (hf : ∀ k, countKou e (f k) = countKou e k + δ) :
    ∀ l : List Kou, ((updKou n f l).map (countKou e)).sum ≤ (l.map (countKou e)).sum + δ := by
  intro l
  induction l with
  | nil => simp [updKou]
  | cons k rest ih =>
    rw [updKou]
    by_cases h : k.name = n
    · simp only [h, if_pos, List.map_cons, List.sum_cons, hf]
      omega
    · simp only [h, if_neg, if_false, List.map_cons, List.sum_cons]
      omega
/-- One row step cannot increase the total number of occurrences of a clause
entry in the tree plus the pending list. -/
theorem stepRow_count (e : String × SetsuOut) (mokuRows : List Row)
    (st : BState) (p : List Setsu) (row : Row) :
    countState e (stepRow mokuRows (st, p) row).1 +
      (((stepRow mokuRows (st, p) row).2).map setsuEntryOf).count e ≤
      countState e st + (p.map setsuEntryOf).count e := by
  rw [stepRow]
  split
  · -- chapter header
    split
    · rename_i heq2
      simp [countState, heq2, countKan]
    · split
      · exact le_refl _
      · rename_i kan0 heq2 hne
        replace heq2 : st.currentKan = some kan0 := heq2
        simp [countState, heq2, countKan, List.map_append]
  · -- section header
    split
    · split
      · rename_i kan0 heq2 hf
        simp [countState]
      · rename_i kan0 heq2 hf
        replace heq2 : st.currentKan = some kan0 := heq2
        simp [countState, heq2, countKan, countKou, List.map_append]
    · exact le_refl _
  · -- item row
    split
    · rename_i mokuName data heq _ _ kouName kan0 hkou hkan
      replace hkan : st.currentKan = some kan0 := hkan
      have hpart := count_filter_partition e (claimCond row.y (nextMokuY mokuRows row.y)) p
      simp only [countState, hkan]
      have hδ : ∀ k : Kou,
          countKou e { k with moku := k.moku ++ [(mokuName,
            (⟨data.honnendo, data.zennendo, data.hikaku,
              if (p.filter (claimCond row.y (nextMokuY mokuRows row.y))).isEmpty then none
              else some ((p.filter (claimCond row.y (nextMokuY mokuRows row.y))).map setsuEntryOf)⟩ : MokuData))] } =
            countKou e k + countMoku e (mokuName,
              (⟨data.honnendo, data.zennendo, data.hikaku,
                if (p.filter (claimCond row.y (nextMokuY mokuRows row.y))).isEmpty then none
                else some ((p.filter (claimCond row.y (nextMokuY mokuRows row.y))).map setsuEntryOf)⟩ : MokuData)) :=
        fun k => countKou_append_moku e k _
      have h1 := updKou_count_le e kouName _ _ hδ kan0.kou
      have hmc : countMoku e (mokuName,
          (⟨data.honnendo, data.zennendo, data.hikaku,
            if (p.filter (claimCond row.y (nextMokuY mokuRows row.y))).isEmpty then none
            else some ((p.filter (claimCond row.y (nextMokuY mokuRows row.y))).map setsuEntryOf)⟩ : MokuData)) =
          ((p.filter (claimCond row.y (nextMokuY mokuRows row.y))).map setsuEntryOf).count e := by
        by_cases hE : (p.filter (claimCond row.y (nextMokuY mokuRows row.y))).isEmpty = true
        · simp [countMoku, hE, List.isEmpty_iff.mp hE]
        · simp [countMoku, hE]
      rw [hmc] at h1
      simp only [countKan]
      omega
    · exact le_refl _
  · exact le_refl _

/-- The row loop of a spread cannot increase the total number of occurrences
of a clause entry in the tree plus the pending list. -/
theorem foldlRows_count (e : String × SetsuOut) (mokuRows : List Row) :
    ∀ (rows : List Row) (acc : BState × List Setsu),
      countState e ((rows.foldl (stepRow mokuRows) acc)).1 +
        (((rows.foldl (stepRow mokuRows) acc)).2.map setsuEntryOf).count e ≤
        countState e acc.1 + (acc.2.map setsuEntryOf).count e := by
  intro rows
  induction rows with
  | nil => intro acc; exact le_refl _
  | cons r rs ih =>
    intro acc
    rw [List.foldl_cons]
    exact le_trans (ih (stepRow mokuRows acc r)) (stepRow_count e mokuRows acc.1 acc.2 r)

/-- Each clause occurrence of a spread is attached to at most one item: a
spread adds at most its own clause-entry multiplicity to the tree. -/
theorem processSpread_count (e : String × SetsuOut) (st : BState) (sp : Spread) :
    countState e (processSpread st sp) ≤
      countState e st + ((sp.setsuList.map setsuEntryOf).count e) :=
  le_trans (Nat.le_add_right _ _) (foldlRows_count e (mokuRowsOf sp) sp.leftRows (st, sp.setsuList))
/-- C2: an item row processed with an open section claims exactly the
still-unclaimed clauses whose anchor satisfies
`item.y - 20 ≤ y_start < next_item.y - 20` (`next_item` the next item row of
the spread, `+∞` when none; margin 20), attaches them to the freshly appended
item, and removes them from the pending list (claimed and remaining clauses
partition the pending list); consequently a spread never duplicates a clause
across items: the tree gains at most each clause occurrence once. -/
theorem claim_C2 :
    (∀ (mokuRows : List Row) (st : BState) (pending : List Setsu) (row : Row)
        (mokuName : String) (data : RowData) (kouName : String) (kan : Kan),
      identify_row_type row.left = ("moku", some mokuName, some data) →
      st.currentKou = some kouName →
      st.currentKan = some kan →
      stepRow mokuRows (st, pending) row =
        ({ st with
            currentKan := some
              { kan with
                kou :=
                  updKou kouName
                    (fun k =>
                      { k with
                        moku := k.moku ++
                          [(mokuName,
                            ⟨data.honnendo, data.zennendo, data.hikaku,
                              if (pending.filter
                                  (claimCond row.y (nextMokuY mokuRows row.y))).isEmpty then
                                none
                              else
                                some ((pending.filter
                                  (claimCond row.y (nextMokuY mokuRows row.y))).map
                                    setsuEntryOf)⟩)] })
                    kan.kou } },
          pending.filter (fun s => !claimCond row.y (nextMokuY mokuRows row.y) s))) ∧
    (∀ (rowY : Int) (nextY : Option Int) (s : Setsu),
      claimCond rowY nextY s = true ↔
        (rowY - 20 ≤ s.yStart ∧ ∀ ny, nextY = some ny → s.yStart < ny - 20)) ∧
    (∀ (rowY : Int) (nextY : Option Int) (pending : List Setsu),
      (pending.filter (claimCond rowY nextY) ++
        pending.filter (fun s => !claimCond rowY nextY s)).Perm pending) ∧
    (∀ (e : String × SetsuOut) (st : BState) (sp : Spread),
      countState e (processSpread st sp) ≤
        countState e st + ((sp.setsuList.map setsuEntryOf).count e)) := by
  refine ⟨?_, ?_, ?_, ?_⟩
  · intro mokuRows st pending row mokuName data kouName kan hid hkou hkan
    simp [stepRow, hid, hkou, hkan]
  · intro rowY nextY s
    cases nextY <;> simp [claimCond]
  · intro rowY nextY pending
    exact List.filter_append_perm _ pending
  · intro e st sp
    exact processSpread_count e st sp
/-- C2 witness: of three pending clauses, the item row at y = 100 with next
item row at y = 200 claims exactly the clause anchored at y = 100 (interval
[80, 180)), attaches it, and leaves the other two pending. -/
theorem claim_C2_witness :
    identify_row_type "1 う 5 5 0" =
      ("moku", some "う", some ⟨some "1", some 5000, some 5000, some 0⟩) ∧
    stepRow [⟨100, "1 う 5 5 0"⟩, ⟨200, "2 え 6 6 0"⟩]
        ((⟨[], some ⟨"あ", some 5000, [⟨"い", some 5000, []⟩]⟩, some "い"⟩ : BState),
          [⟨"p", 1000, 50, .dict [] none⟩, ⟨"q", 2000, 100, .dict [] none⟩,
           ⟨"r", 3000, 300, .dict [] none⟩])
        ⟨100, "1 う 5 5 0"⟩ =
      ((⟨[], some ⟨"あ", some 5000,
          [⟨"い", some 5000,
            [("う", ⟨some 5000, some 5000, some 0,
              some [("q", ⟨2000, none⟩)]⟩)]⟩]⟩, some "い"⟩ : BState),
        [⟨"p", 1000, 50, .dict [] none⟩, ⟨"r", 3000, 300, .dict [] none⟩]) :=
  ⟨by decide,
   by
     have h := claim_C2.1 [⟨100, "1 う 5 5 0"⟩, ⟨200, "2 え 6 6 0"⟩]
       ⟨[], some ⟨"あ", some 5000, [⟨"い", some 5000, []⟩]⟩, some "い"⟩
       [⟨"p", 1000, 50, .dict [] none⟩, ⟨"q", 2000, 100, .dict [] none⟩,
        ⟨"r", 3000, 300, .dict [] none⟩]
       ⟨100, "1 う 5 5 0"⟩ "う" ⟨some "1", some 5000, some 5000, some 0⟩ "い"
       ⟨"あ", some 5000, [⟨"い", some 5000, []⟩]⟩ (by decide) rfl rfl
     exact h.trans (by decide)⟩

end Budget
